import Mathlib

/-!
# Verification of the YC AI startup tracker pipeline

Shallow embedding of `src/scraper.py` (class `LinkedInScraper`): the
qualifier of `search_yc_ai_startups`, the deduplicating merge of
`save_startups_data`, the JSON persistence layer, the report rendering of
`update_readme`, and the control flow of `run`.  Python strings are
modelled as Lean `String` (a list of Unicode scalar values), Python lists
as Lean `List`, and the two file side effects (store file, README) as
explicit values returned by the embedded functions.
-/

/-- The startup record built at `scraper.py` lines 119-124 (and in the mock
data of `run`, lines 225-238): a JSON object with the four string fields
`name`, `description`, `url`, `found_date`, in that insertion order. -/
structure StartupRecord where
  name : String
  description : String
  url : String
  found_date : String
deriving DecidableEq, Repr

/-- A successfully parsed LinkedIn company result card in
`search_yc_ai_startups` (lines 105-108, 114-117): the extracted company
name, the extracted summary text, and the extracted profile link (the
empty string when the link element is absent, line 117).  Cards whose
name or description extraction raises are skipped by the `except` at
lines 129-131 and never reach the qualifier, so they are not modelled. -/
structure CompanyCard where
  name : String
  description : String
  url : String
deriving DecidableEq, Repr

/-- The qualifier condition of `search_yc_ai_startups`, lines 111-112:

`("AI" in d or "artificial intelligence" in d.lower()) and
 ("Y Combinator" in d or "YC" in d)`.

Python's `in` on strings is substring containment, modelled by the
list-infix relation on the underlying character lists; `str.lower()` is
modelled by mapping `Char.toLower` over the characters (this agrees with
Python's case mapping on every character that can influence a match of
the ASCII phrase "artificial intelligence", apart from exotic code points
with multi-character or cross-script lowercasings). -/
def qualifies (d : String) : Bool :=
  (decide ("AI".toList <:+: d.toList)
      || decide ("artificial intelligence".toList <:+: d.toList.map Char.toLower))
    && (decide ("Y Combinator".toList <:+: d.toList)
      || decide ("YC".toList <:+: d.toList))

/-- The collection loop of `search_yc_ai_startups`, lines 105-127: every
successfully parsed card whose description passes the lines 111-112 test
is turned into a record stamped with the current date (line 123) and
appended to the `startups` batch, in card order. -/
def search_yc_ai_startups (today : String) : List CompanyCard → List StartupRecord
  | [] => []
  | card :: rest =>
      if qualifies card.description then
        { name := card.name, description := card.description,
          url := card.url, found_date := today } :: search_yc_ai_startups today rest
      else
        search_yc_ai_startups today rest

/-- The merge loop of `save_startups_data`, lines 152-157:

```
existing_names = [s["name"] for s in existing_startups]
for startup in startups:
    if startup["name"] not in existing_names:
        existing_startups.append(startup)
        existing_names.append(startup["name"])
```

`existing_startups` is the accumulator, `existing_names` the accumulated
name list, and the third argument the remaining iterations of the loop. -/
def mergeLoop (existing_startups : List StartupRecord) (existing_names : List String) :
    List StartupRecord → List StartupRecord
  | [] => existing_startups
  | startup :: rest =>
      if startup.name ∈ existing_names then
        mergeLoop existing_startups existing_names rest
      else
        mergeLoop (existing_startups ++ [startup]) (existing_names ++ [startup.name]) rest

/-- The merge of `save_startups_data` as a function of the existing
collection and the incoming batch (lines 152-157): the name list is seeded
from the existing records (line 153) and the loop runs over the batch. -/
def merge (existing incoming : List StartupRecord) : List StartupRecord :=
  mergeLoop existing (existing.map (fun s => s.name)) incoming

/-- Spec-side definition of the records a merge appends, following the
spec's words: "For each record in `incoming`, in order, append it to the
result only if its name is not already in the accumulated name set; then
add its name to the set immediately".  `seen` is the accumulated name
set, seeded with the names of the existing collection. -/
def newRecords (seen : List String) : List StartupRecord → List StartupRecord
  | [] => []
  | startup :: rest =>
      if startup.name ∈ seen then newRecords seen rest
      else startup :: newRecords (seen ++ [startup.name]) rest

/-- The merge loop is the accumulator followed by the spec-side selection
of new records. -/
theorem mergeLoop_eq_append (l : List StartupRecord) :
    ∀ (acc : List StartupRecord) (names : List String),
      mergeLoop acc names l = acc ++ newRecords names l := by
  induction l with
  | nil => intro acc names; simp [mergeLoop, newRecords]
  | cons s rest ih =>
      intro acc names
      by_cases h : s.name ∈ names
      · simp [mergeLoop, newRecords, h, ih]
      · simp [mergeLoop, newRecords, h, ih]

/-- If every remaining record's name is already seen, nothing is selected. -/
theorem newRecords_eq_nil (l : List StartupRecord) :
    ∀ names : List String, (∀ s ∈ l, s.name ∈ names) → newRecords names l = [] := by
  induction l with
  | nil => intro names _; simp [newRecords]
  | cons s rest ih =>
      intro names h
      have hs : s.name ∈ names := h s (List.mem_cons_self s rest)
      simp only [newRecords, if_pos hs]
      exact ih names (fun t ht => h t (List.mem_cons_of_mem s ht))

/-- After a merge, the name of every incoming record occurs either among
the seen names or among the names of the selected new records. -/
theorem name_mem_of_mem (l : List StartupRecord) :
    ∀ (names : List String) (s : StartupRecord), s ∈ l →
      s.name ∈ names ∨ s.name ∈ (newRecords names l).map (fun t => t.name) := by
  induction l with
  | nil => intro names s hs; cases hs
  | cons a rest ih =>
      intro names s hs
      by_cases ha : a.name ∈ names
      · simp only [newRecords, if_pos ha]
        rcases List.mem_cons.mp hs with h | h
        · subst h; exact Or.inl ha
        · exact ih names s h
      · simp only [newRecords, if_neg ha, List.map_cons, List.mem_cons]
        rcases List.mem_cons.mp hs with h | h
        · subst h; exact Or.inr (Or.inl rfl)
        · rcases ih (names ++ [a.name]) s h with hmem | hmem
          · rcases List.mem_append.mp hmem with h1 | h1
            · exact Or.inl h1
            · exact Or.inr (Or.inl (List.mem_singleton.mp h1))
          · exact Or.inr (Or.inr hmem)

/-- A record selected by `newRecords` has a name outside the seen set the
selection started from. -/
theorem name_not_seen_of_mem_newRecords (l : List StartupRecord) :
    ∀ (names : List String) (s : StartupRecord),
      s ∈ newRecords names l → s.name ∉ names := by
  induction l with
  | nil => intro names s hs; simp [newRecords] at hs
  | cons a rest ih =>
      intro names s hs
      by_cases ha : a.name ∈ names
      · simp only [newRecords, if_pos ha] at hs
        exact ih names s hs
      · simp only [newRecords, if_neg ha] at hs
        rcases List.mem_cons.mp hs with h | h
        · subst h; exact ha
        · intro hmem
          exact ih (names ++ [a.name]) s h (List.mem_append.mpr (Or.inl hmem))

/-- The records selected by `newRecords` carry pairwise distinct names. -/
theorem newRecords_pairwise (l : List StartupRecord) :
    ∀ names : List String,
      (newRecords names l).Pairwise (fun a b => a.name ≠ b.name) := by
  induction l with
  | nil => intro names; simp [newRecords]
  | cons a rest ih =>
      intro names
      by_cases ha : a.name ∈ names
      · simp only [newRecords, if_pos ha]
        exact ih names
      · simp only [newRecords, if_neg ha]
        refine List.Pairwise.cons ?_ (ih (names ++ [a.name]))
        intro s hs heq
        exact name_not_seen_of_mem_newRecords rest (names ++ [a.name]) s hs
          (List.mem_append.mpr (Or.inr (by simp [heq])))

/-- C1: for every description text `d`, the lines 111-112 qualifier accepts
`d` iff (`d` contains `"AI"` case-sensitively, or `d` lowercased contains
`"artificial intelligence"`) and (`d` contains `"Y Combinator"` or `"YC"`
case-sensitively); and every record of the batch collected by
`search_yc_ai_startups` has a description accepted by that qualifier. -/
theorem qualifies_iff_and_only_qualified_collected :
    (∀ d : String, qualifies d = true ↔
        (("AI".toList <:+: d.toList)
            ∨ ("artificial intelligence".toList <:+: d.toList.map Char.toLower))
        ∧ (("Y Combinator".toList <:+: d.toList) ∨ ("YC".toList <:+: d.toList)))
    ∧ (∀ (today : String) (cards : List CompanyCard) (r : StartupRecord),
        r ∈ search_yc_ai_startups today cards → qualifies r.description = true) := by
  constructor
  · intro d
    simp [qualifies]
  · intro today cards
    induction cards with
    | nil => intro r hr; cases hr
    | cons card rest ih =>
        intro r hr
        by_cases hq : qualifies card.description = true
        · simp only [search_yc_ai_startups, if_pos hq] at hr
          rcases List.mem_cons.mp hr with h | h
          · subst h; exact hq
          · exact ih r h
        · simp only [search_yc_ai_startups, if_neg hq] at hr
          exact ih r hr

/-- Witness for the collected-batch half of the qualifier claim, at the
sample description from the spec. -/
theorem qualifies_iff_and_only_qualified_collected_witness :
    qualifies "YC S2023 batch. Enterprise AI solutions." = true :=
  qualifies_iff_and_only_qualified_collected.2 "2024-01-01"
    [⟨"DataSense AI", "YC S2023 batch. Enterprise AI solutions.", ""⟩]
    ⟨"DataSense AI", "YC S2023 batch. Enterprise AI solutions.", "", "2024-01-01"⟩
    (by decide)

/-- C2: the merge of lines 152-157 keeps the existing collection unchanged
as a prefix (so on a name collision the stored record keeps all of its
original fields) and appends exactly the spec-side selection `newRecords`:
the incoming records, in batch order, whose name is neither an existing
name nor the name of an earlier appended record; moreover every appended
record's name is absent from the existing names, and the appended records
have pairwise distinct names (duplicates within the batch collapse to the
first occurrence). -/
theorem merge_spec (existing incoming : List StartupRecord) :
    merge existing incoming
        = existing ++ newRecords (existing.map (fun s => s.name)) incoming
    ∧ (∀ s ∈ newRecords (existing.map (fun s => s.name)) incoming,
        s.name ∉ existing.map (fun s => s.name))
    ∧ (newRecords (existing.map (fun s => s.name)) incoming).Pairwise
        (fun a b => a.name ≠ b.name) := by
  refine ⟨mergeLoop_eq_append incoming existing _, ?_, ?_⟩
  · intro s hs
    exact name_not_seen_of_mem_newRecords incoming _ s hs
  · exact newRecords_pairwise incoming _

/-- Witness for the merge claim at the spec's dedup example: with existing
record X and incoming batch [X with a new description, Y], the only
appended record is Y, whose name is not among the existing names. -/
theorem merge_spec_witness :
    (⟨"Y", "d", "", "2024-01-02"⟩ : StartupRecord).name ∉
      ([⟨"X", "orig", "", "2024-01-01"⟩] : List StartupRecord).map (fun s => s.name) :=
  (merge_spec [⟨"X", "orig", "", "2024-01-01"⟩]
      [⟨"X", "new", "", "2024-01-02"⟩, ⟨"Y", "d", "", "2024-01-02"⟩]).2.1
    ⟨"Y", "d", "", "2024-01-02"⟩ (by decide)

/-- C3: merging the same incoming batch twice changes nothing. -/
theorem merge_idempotent (A B : List StartupRecord) :
    merge (merge A B) B = merge A B := by
  have hAB : merge A B = A ++ newRecords (A.map (fun s => s.name)) B :=
    mergeLoop_eq_append B A _
  have hnames : (merge A B).map (fun s => s.name)
      = A.map (fun s => s.name)
        ++ (newRecords (A.map (fun s => s.name)) B).map (fun s => s.name) := by
    rw [hAB, List.map_append]
  have hall : ∀ s ∈ B, s.name ∈ (merge A B).map (fun s => s.name) := by
    intro s hs
    rw [hnames]
    exact List.mem_append.mpr (name_mem_of_mem B (A.map (fun s => s.name)) s hs)
  calc merge (merge A B) B
      = merge A B ++ newRecords ((merge A B).map (fun s => s.name)) B :=
        mergeLoop_eq_append B (merge A B) _
    _ = merge A B ++ [] := by rw [newRecords_eq_nil B _ hall]
    _ = merge A B := List.append_nil _

/-- A list that occurs inside another list still occurs after text is
appended on both sides. -/
theorem mem_middle {α : Type} {l m p s : List α} (h : l <:+: m) :
    l <:+: p ++ m ++ s :=
  h.trans ⟨p, s, rfl⟩

/-- C10: the qualifier is monotone under textual extension — surrounding a
qualifying description with arbitrary text keeps it qualifying. -/
theorem qualifies_mono (p d s : String) (h : qualifies d = true) :
    qualifies (p ++ d ++ s) = true := by
  have hdata : (p ++ d ++ s).toList = p.toList ++ d.toList ++ s.toList := by
    simp [String.toList, String.data_append]
  simp only [qualifies, Bool.and_eq_true, Bool.or_eq_true, decide_eq_true_eq] at h ⊢
  rw [hdata, List.map_append, List.map_append]
  obtain ⟨h1, h2⟩ := h
  constructor
  · rcases h1 with h1 | h1
    · exact Or.inl (mem_middle h1)
    · exact Or.inr (mem_middle h1)
  · rcases h2 with h2 | h2
    · exact Or.inl (mem_middle h2)
    · exact Or.inr (mem_middle h2)

/-- Witness for qualifier monotonicity at a concrete qualifying
description and concrete surrounding text. -/
theorem qualifies_mono_witness :
    qualifies "We use AI at our YC company" = true
    ∧ qualifies ("Breaking: " ++ "We use AI at our YC company" ++ " (2024)") = true :=
  ⟨by decide, qualifies_mono "Breaking: " "We use AI at our YC company" " (2024)" (by decide)⟩

/-- Lexicographic order on character lists by code point: the comparison
Python applies to the sort keys (strings) in `list.sort`. -/
def charListLe : List Char → List Char → Bool
  | [], _ => true
  | _ :: _, [] => false
  | a :: as, b :: bs =>
      if a < b then true
      else if b < a then false
      else charListLe as bs

/-- Python's `<=` on strings: lexicographic by code point. -/
def dateLe (a b : String) : Bool := charListLe a.toList b.toList

theorem charListLe_refl (x : List Char) : charListLe x x = true := by
  induction x with
  | nil => rfl
  | cons a as ih => simp [charListLe, lt_irrefl, ih]

theorem charListLe_total (x : List Char) :
    ∀ y : List Char, charListLe x y = true ∨ charListLe y x = true := by
  induction x with
  | nil => intro y; exact Or.inl rfl
  | cons a as ih =>
      intro y
      cases y with
      | nil => exact Or.inr rfl
      | cons b bs =>
          rcases lt_trichotomy a b with h | h | h
          · left; simp [charListLe, h]
          · subst h
            rcases ih bs with h1 | h1
            · left; simp [charListLe, lt_irrefl, h1]
            · right; simp [charListLe, lt_irrefl, h1]
          · right; simp [charListLe, h]

theorem charListLe_cons_iff (a b : Char) (as bs : List Char) :
    charListLe (a :: as) (b :: bs) = true ↔
      a < b ∨ (a = b ∧ charListLe as bs = true) := by
  by_cases h1 : a < b
  · simp [charListLe, h1]
  · by_cases h2 : b < a
    · have hne : a ≠ b := fun he => absurd (he ▸ h2) (lt_irrefl a)
      simp [charListLe, h1, h2, hne]
    · have heq : a = b := le_antisymm (not_lt.mp h2) (not_lt.mp h1)
      simp [charListLe, h1, h2, heq]

theorem charListLe_trans (x : List Char) :
    ∀ y z : List Char, charListLe x y = true → charListLe y z = true →
      charListLe x z = true := by
  induction x with
  | nil => intro y z _ _; rfl
  | cons a as ih =>
      intro y z hxy hyz
      cases y with
      | nil => simp [charListLe] at hxy
      | cons b bs =>
          cases z with
          | nil => simp [charListLe] at hyz
          | cons c cs =>
              rw [charListLe_cons_iff] at hxy hyz ⊢
              rcases hxy with hab | ⟨hab, hxy'⟩
              · rcases hyz with hbc | ⟨hbc, _⟩
                · exact Or.inl (lt_trans hab hbc)
                · exact Or.inl (hbc ▸ hab)
              · rcases hyz with hbc | ⟨hbc, hyz'⟩
                · exact Or.inl (hab ▸ hbc)
                · exact Or.inr ⟨hab.trans hbc, ih bs cs hxy' hyz'⟩

/-- The sort relation of `update_readme`, line 172:
`startups.sort(key=lambda x: x.get("found_date", ""), reverse=True)` —
record `a` may precede record `b` when `b`'s found date is at most `a`'s
(descending).  Every record carries a `found_date` field in this pipeline,
so the `.get` default never fires. -/
def byDateDesc (a b : StartupRecord) : Prop :=
  dateLe b.found_date a.found_date = true

instance : DecidableRel byDateDesc := fun a b =>
  instDecidableEqBool (dateLe b.found_date a.found_date) true

instance : IsTotal StartupRecord byDateDesc := by
  refine ⟨fun a b => ?_⟩
  unfold byDateDesc dateLe
  exact charListLe_total b.found_date.toList a.found_date.toList

instance : IsTrans StartupRecord byDateDesc := by
  refine ⟨fun a b c hab hbc => ?_⟩
  unfold byDateDesc dateLe at hab hbc ⊢
  exact charListLe_trans c.found_date.toList b.found_date.toList a.found_date.toList hbc hab

/-- The in-place `list.sort` of `update_readme` line 172.  CPython's sort
is stable, and with `reverse=True` records comparing equal still keep
their original relative order; the unique stable descending ordering is
modelled by insertion sort with the `byDateDesc` relation (insert each
record, scanning from earlier input positions, before the first record
whose date is at most its own). -/
def sortByFoundDateDesc (startups : List StartupRecord) : List StartupRecord :=
  List.insertionSort byDateDesc startups

/-- The display truncation of `update_readme`, line 193:
`short_desc = description[:100] + "..." if len(description) > 100 else description`.
Python slicing and `len` count Unicode code points, as `toList` does. -/
def shortDesc (description : String) : String :=
  if description.length > 100 then String.mk (description.toList.take 100) ++ "..."
  else description

/-- The link cell of `update_readme`, line 196:
`link = f"[Profile]({url})" if url else "N/A"` (a Python string is falsy
exactly when it is empty). -/
def linkCell (url : String) : String :=
  if url = "" then "N/A" else "[Profile](" ++ url ++ ")"

/-- One emitted table row of `update_readme`, lines 186-198. -/
def rowOf (startup : StartupRecord) : String :=
  "| " ++ startup.name ++ " | " ++ shortDesc startup.description ++ " | "
    ++ startup.found_date ++ " | " ++ linkCell startup.url ++ " |\n"

/-- The fixed document skeleton above the table rows, lines 174-184. -/
def readmeHeader (today : String) : String :=
  "# Y Combinator AI Startup Tracker\n\nAutomatically updated list of AI startups backed by Y Combinator found on LinkedIn.\n\nLast updated: "
    ++ today
    ++ "\n\n## Latest AI Startups\n\n| Name | Description | Found Date | LinkedIn |\n|------|-------------|------------|----------|\n"

/-- The fixed explanatory footer, lines 200-211. -/
def readmeFooter : String :=
  "\n## How It Works\n\nThis repository uses GitHub Actions to automatically:\n1. Search LinkedIn for AI startups backed by Y Combinator\n2. Update this README with the latest findings\n3. Run this process daily\n\n## Note\n\nThis tool is for educational purposes only. Please respect LinkedIn\x27s terms of service and rate limits.\n"

/-- `update_readme`, lines 167-216.  Python's `startups.sort(...)` at line
172 sorts the caller's list object in place, so the function both writes
the document and leaves the caller's list in sorted order; the result is
the pair (README text written, state of the caller's list after the
call). -/
def update_readme (startups : List StartupRecord) (today : String) :
    String × List StartupRecord :=
  let sorted := sortByFoundDateDesc startups
  (readmeHeader today ++ String.join (sorted.map rowOf) ++ readmeFooter, sorted)

/-- C4 counterexample: the claim that the renderer sorts only a copy and
leaves the caller's sequence in its original order is false — at this
concrete two-record input (older record first), the caller's list after
`update_readme` is no longer equal to the original list, because line 172
sorts the list object in place. -/
theorem update_readme_mutates_caller :
    ¬ ((update_readme
          [⟨"A", "x", "", "2024-01-01"⟩, ⟨"B", "y", "", "2024-01-02"⟩]
          "2024-01-02").2
        = [⟨"A", "x", "", "2024-01-01"⟩, ⟨"B", "y", "", "2024-01-02"⟩]) := by
  decide

/-- C4 amended: `update_readme` sorts the caller's sequence in place —
after rendering, the caller's sequence is a permutation of the original,
stably sorted by found date descending, rather than untouched.  (The
persisted store file is unaffected: `save_startups_data` writes it before
`update_readme` runs.) -/
theorem update_readme_caller_list_sorted (startups : List StartupRecord) (today : String) :
    ((update_readme startups today).2).Perm startups
    ∧ List.Sorted byDateDesc (update_readme startups today).2 :=
  ⟨List.perm_insertionSort byDateDesc startups,
   List.sorted_insertionSort byDateDesc startups⟩

/-- C5: the rendered report's table rows are exactly the rows of the
records in `sortByFoundDateDesc` order; that order is sorted by found
date descending, and the sort is stable — two records with equal found
date that appear in a given relative order in the input appear in the
same relative order in the rendered sequence. -/
theorem report_rows_sorted_stable (startups : List StartupRecord) :
    (∀ today, (update_readme startups today).1
        = readmeHeader today
          ++ String.join ((sortByFoundDateDesc startups).map rowOf)
          ++ readmeFooter)
    ∧ List.Sorted byDateDesc (sortByFoundDateDesc startups)
    ∧ ∀ a b : StartupRecord, a.found_date = b.found_date →
        [a, b].Sublist startups → [a, b].Sublist (sortByFoundDateDesc startups) := by
  refine ⟨fun today => rfl, List.sorted_insertionSort byDateDesc startups, ?_⟩
  intro a b hdate hsub
  refine List.pair_sublist_insertionSort ?_ hsub
  unfold byDateDesc dateLe
  rw [hdate]
  exact charListLe_refl b.found_date.toList

/-- Witness for row-order stability: two records sharing a found date keep
their input order in the rendered sequence, at a concrete three-record
input. -/
theorem report_rows_sorted_stable_witness :
    ((⟨"A", "x", "", "2024-01-01"⟩ : StartupRecord).found_date
        = (⟨"B", "y", "", "2024-01-01"⟩ : StartupRecord).found_date)
    ∧ ([⟨"A", "x", "", "2024-01-01"⟩, ⟨"B", "y", "", "2024-01-01"⟩]
        : List StartupRecord).Sublist
        (sortByFoundDateDesc
          [⟨"C", "z", "", "2023-12-31"⟩, ⟨"A", "x", "", "2024-01-01"⟩,
           ⟨"B", "y", "", "2024-01-01"⟩]) :=
  ⟨rfl,
   (report_rows_sorted_stable
        [⟨"C", "z", "", "2023-12-31"⟩, ⟨"A", "x", "", "2024-01-01"⟩,
         ⟨"B", "y", "", "2024-01-01"⟩]).2.2
      ⟨"A", "x", "", "2024-01-01"⟩ ⟨"B", "y", "", "2024-01-01"⟩ rfl (by decide)⟩

/-- C6: a description of at most 100 characters is rendered unmodified; a
longer one is rendered as exactly its first 100 characters followed by
the three-character ellipsis marker `...`. -/
theorem shortDesc_truncation (d : String) :
    (d.length ≤ 100 → shortDesc d = d)
    ∧ (100 < d.length →
        (shortDesc d).toList = d.toList.take 100 ++ ['.', '.', '.']) := by
  constructor
  · intro h
    simp [shortDesc, Nat.not_lt.mpr h]
  · intro h
    have hdots : "...".data = ['.', '.', '.'] := rfl
    simp [shortDesc, h, String.toList, String.data_append, hdots]

/-- Witness for the truncation boundary: a 101-character description is
truncated to its first 100 characters plus the ellipsis, and a
100-character description is emitted unmodified. -/
theorem shortDesc_truncation_witness :
    (100 < (String.mk (List.replicate 101 'a')).length
      ∧ (shortDesc (String.mk (List.replicate 101 'a'))).toList
          = (String.mk (List.replicate 101 'a')).toList.take 100 ++ ['.', '.', '.'])
    ∧ ((String.mk (List.replicate 100 'a')).length ≤ 100
      ∧ shortDesc (String.mk (List.replicate 100 'a')) = String.mk (List.replicate 100 'a')) :=
  ⟨⟨by decide, (shortDesc_truncation (String.mk (List.replicate 101 'a'))).2 (by decide)⟩,
   ⟨by decide, (shortDesc_truncation (String.mk (List.replicate 100 'a'))).1 (by decide)⟩⟩

/-! ## The persisted store file

`save_startups_data` (lines 140-165) reads `data/startups.json` when it
exists, treating unparsable contents as an empty collection (lines
144-150), merges, and rewrites the whole file with
`json.dump(existing_startups, f, indent=2)` (lines 160-161).  The CPython
`json` module is external library code; it is modelled here by an exact
serializer for `indent=2` output with the default `ensure_ascii=True`
escaping, and by a parser specialised to the store's schema — a JSON
array of flat objects with the four string-valued keys in the order the
program itself writes them.  The parser implements the full JSON string
syntax (escapes, `\uXXXX`, surrogate pairs, whitespace, strict rejection
of raw control characters); JSON documents outside the store schema are
mapped to a parse failure.  One representational caveat: a Lean `Char`
cannot hold a lone surrogate, so `\uXXXX` escapes of unpaired surrogates
are also mapped to failure; the program's own serialised files never
contain them. -/

/-- Lower-case hexadecimal digit, as produced by CPython's
`'\\u{0:04x}'.format(n)` escape formatting. -/
def hexDigit (n : Nat) : Char :=
  if n < 10 then Char.ofNat ('0'.toNat + n) else Char.ofNat ('a'.toNat + n - 10)

/-- The four hex digits of a 16-bit escape value, most significant first. -/
def toHex4 (n : Nat) : List Char :=
  [hexDigit (n / 4096 % 16), hexDigit (n / 256 % 16), hexDigit (n / 16 % 16),
   hexDigit (n % 16)]

/-- CPython `json` `ensure_ascii` escaping of one character: the two-char
escapes of the escape table, printable ASCII verbatim, `\uXXXX` for other
code points below 0x10000, and a surrogate pair of escapes above. -/
def encodeChar (c : Char) : List Char :=
  if c = '"' then ['\\', '"']
  else if c = '\\' then ['\\', '\\']
  else if c = '\x08' then ['\\', 'b']
  else if c = '\t' then ['\\', 't']
  else if c = '\n' then ['\\', 'n']
  else if c = '\x0c' then ['\\', 'f']
  else if c = '\r' then ['\\', 'r']
  else if 0x20 ≤ c.toNat ∧ c.toNat ≤ 0x7e then [c]
  else if c.toNat < 0x10000 then '\\' :: 'u' :: toHex4 c.toNat
  else '\\' :: 'u' :: toHex4 (0xD800 + (c.toNat - 0x10000) / 0x400)
        ++ '\\' :: 'u' :: toHex4 (0xDC00 + (c.toNat - 0x10000) % 0x400)

/-- A serialised JSON string: opening quote, escaped characters, closing
quote. -/
def encodeString (s : String) : List Char :=
  '"' :: s.toList.flatMap encodeChar ++ ['"']

def nameKey : List Char := ['n', 'a', 'm', 'e']

def descriptionKey : List Char :=
  ['d', 'e', 's', 'c', 'r', 'i', 'p', 't', 'i', 'o', 'n']

def urlKey : List Char := ['u', 'r', 'l']

def foundDateKey : List Char := ['f', 'o', 'u', 'n', 'd', '_', 'd', 'a', 't', 'e']

/-- One serialised key/value member: `"key": "value"`. -/
def dumpField (key : List Char) (v : String) : List Char :=
  '"' :: key ++ '"' :: ':' :: ' ' :: encodeString v

/-- One record object as `json.dump` lays it out at `indent=2` inside the
array: members at indentation 4, separated by `,\n`, closing brace at
indentation 2, keys in the record's insertion order. -/
def dumpRecordBody (r : StartupRecord) : List Char :=
  '\x7b' :: '\n' :: ' ' :: ' ' :: ' ' :: ' ' :: dumpField nameKey r.name
    ++ ',' :: '\n' :: ' ' :: ' ' :: ' ' :: ' ' :: dumpField descriptionKey r.description
    ++ ',' :: '\n' :: ' ' :: ' ' :: ' ' :: ' ' :: dumpField urlKey r.url
    ++ ',' :: '\n' :: ' ' :: ' ' :: ' ' :: ' ' :: dumpField foundDateKey r.found_date
    ++ '\n' :: ' ' :: ' ' :: '\x7d' :: []

/-- The second and later array items, each preceded by `,\n  `, then the
closing `\n]`. -/
def dumpMore : List StartupRecord → List Char
  | [] => ['\n', ']']
  | r :: rs => ',' :: '\n' :: ' ' :: ' ' :: dumpRecordBody r ++ dumpMore rs

/-- The whole store file text `json.dump(collection, f, indent=2)`: `[]`
for the empty collection, otherwise the bracketed, indented item list. -/
def dumpStartups : List StartupRecord → List Char
  | [] => ['[', ']']
  | r :: rs => '[' :: '\n' :: ' ' :: ' ' :: dumpRecordBody r ++ dumpMore rs

/-- JSON insignificant whitespace. -/
def isJsonWs (c : Char) : Bool :=
  c = ' ' || c = '\t' || c = '\n' || c = '\r'

def skipWs : List Char → List Char
  | [] => []
  | c :: rest => if isJsonWs c then skipWs rest else c :: rest

/-- Hex digit value; JSON `\uXXXX` escapes accept both letter cases. -/
def fromHexDigit (c : Char) : Option Nat :=
  if '0' ≤ c ∧ c ≤ '9' then some (c.toNat - '0'.toNat)
  else if 'a' ≤ c ∧ c ≤ 'f' then some (c.toNat - 'a'.toNat + 10)
  else if 'A' ≤ c ∧ c ≤ 'F' then some (c.toNat - 'A'.toNat + 10)
  else none

def fromHex4 (a b c d : Char) : Option Nat :=
  match fromHexDigit a, fromHexDigit b, fromHexDigit c, fromHexDigit d with
  | some x, some y, some z, some w => some (((x * 16 + y) * 16 + z) * 16 + w)
  | _, _, _, _ => none

/-- Prepend a decoded character to a string-parse result. -/
def consFirst (c : Char) : Option (List Char × List Char) → Option (List Char × List Char)
  | none => none
  | some (l, rest) => some (c :: l, rest)

/- The string-contents scanner below models CPython's `py_scanstring` in
strict mode; escapes of unpaired surrogates are rejected (see the section
comment). -/
mutual

/-- JSON string contents processing: ordinary characters verbatim (raw
control characters rejected, strict mode), a closing quote ends the
string, a backslash starts an escape. -/
def parseStringBody : List Char → Option (List Char × List Char)
  | [] => none
  | c :: rest =>
      if c = '"' then some ([], rest)
      else if c = '\\' then parseEscape rest
      else if c.toNat < 0x20 then none
      else consFirst c (parseStringBody rest)
termination_by l => l.length

/-- The character after a backslash: the short escape table or a
`\uXXXX` escape. -/
def parseEscape : List Char → Option (List Char × List Char)
  | [] => none
  | e :: rest2 =>
      if e = '"' then consFirst '"' (parseStringBody rest2)
      else if e = '\\' then consFirst '\\' (parseStringBody rest2)
      else if e = '/' then consFirst '/' (parseStringBody rest2)
      else if e = 'b' then consFirst '\x08' (parseStringBody rest2)
      else if e = 'f' then consFirst '\x0c' (parseStringBody rest2)
      else if e = 'n' then consFirst '\n' (parseStringBody rest2)
      else if e = 'r' then consFirst '\r' (parseStringBody rest2)
      else if e = 't' then consFirst '\t' (parseStringBody rest2)
      else if e = 'u' then parseUnicodeEscape rest2
      else none
termination_by l => l.length

/-- The four hex digits of a `\uXXXX` escape; a high surrogate value must
be completed by a following low-surrogate escape. -/
def parseUnicodeEscape : List Char → Option (List Char × List Char)
  | a :: b :: c :: d :: rest3 =>
      match fromHex4 a b c d with
      | none => none
      | some n =>
          if 0xD800 ≤ n ∧ n < 0xDC00 then parseLowSurrogate n rest3
          else if 0xDC00 ≤ n ∧ n < 0xE000 then none
          else consFirst (Char.ofNat n) (parseStringBody rest3)
  | _ => none
termination_by l => l.length

/-- The `\uXXXX` escape holding the low surrogate that completes a high
surrogate `n`; the two combine into one astral code point. -/
def parseLowSurrogate (n : Nat) : List Char → Option (List Char × List Char)
  | q1 :: q2 :: e2 :: f2 :: g2 :: h2 :: rest4 =>
      if q1 = '\\' ∧ q2 = 'u' then
        match fromHex4 e2 f2 g2 h2 with
        | none => none
        | some m =>
            if 0xDC00 ≤ m ∧ m < 0xE000 then
              consFirst (Char.ofNat (0x10000 + (n - 0xD800) * 0x400 + (m - 0xDC00)))
                (parseStringBody rest4)
            else none
      else none
  | _ => none
termination_by l => l.length

end

/-- Consume an expected literal character sequence. -/
def expectChars : List Char → List Char → Option (List Char)
  | [], input => some input
  | _ :: _, [] => none
  | c :: cs, d :: input => if c = d then expectChars cs input else none

/-- One `"key": "value"` member: the quoted key, a colon, the quoted
string value, with JSON whitespace allowed around the tokens. -/
def parseField (key : List Char) (input : List Char) : Option (List Char × List Char) :=
  match expectChars ('"' :: key ++ ['"']) (skipWs input) with
  | none => none
  | some r1 =>
      match expectChars [':'] (skipWs r1) with
      | none => none
      | some r2 =>
          match expectChars ['"'] (skipWs r2) with
          | none => none
          | some r3 => parseStringBody r3

/-- One store object: the four string fields in the program's write
order. -/
def parseRecord (input : List Char) : Option (StartupRecord × List Char) :=
  match expectChars ['\x7b'] (skipWs input) with
  | none => none
  | some r0 =>
      match parseField nameKey r0 with
      | none => none
      | some (n, r1) =>
          match expectChars [','] (skipWs r1) with
          | none => none
          | some r2 =>
              match parseField descriptionKey r2 with
              | none => none
              | some (d, r3) =>
                  match expectChars [','] (skipWs r3) with
                  | none => none
                  | some r4 =>
                      match parseField urlKey r4 with
                      | none => none
                      | some (u, r5) =>
                          match expectChars [','] (skipWs r5) with
                          | none => none
                          | some r6 =>
                              match parseField foundDateKey r6 with
                              | none => none
                              | some (fd, r7) =>
                                  match expectChars ['\x7d'] (skipWs r7) with
                                  | none => none
                                  | some r8 =>
                                      some (⟨String.mk n, String.mk d,
                                             String.mk u, String.mk fd⟩, r8)

/-- The non-empty item list of the store array, after the opening `[`:
objects separated by commas up to the closing `]`.  The fuel bounds the
number of items; each item consumes at least one character, so the input
length suffices. -/
def parseRecords : Nat → List Char → Option (List StartupRecord × List Char)
  | 0, _ => none
  | fuel + 1, input =>
      match parseRecord input with
      | none => none
      | some (r, rest) =>
          match skipWs rest with
          | [] => none
          | c :: rest2 =>
              if c = ',' then
                match parseRecords fuel rest2 with
                | none => none
                | some (rs, rest3) => some (r :: rs, rest3)
              else if c = ']' then some ([r], rest2)
              else none

/-- `json.load` on the store file, specialised to the store schema: a
JSON array of record objects, possibly empty, with only trailing
whitespace after it.  `none` models `json.JSONDecodeError`. -/
def parseStartups (contents : String) : Option (List StartupRecord) :=
  match skipWs contents.toList with
  | [] => none
  | c :: r0 =>
      if c = '[' then
        match skipWs r0 with
        | [] => none
        | c2 :: r1 =>
            if c2 = ']' then (if skipWs r1 = [] then some [] else none)
            else
              match parseRecords (contents.length + 1) r0 with
              | none => none
              | some (rs, rest) => if skipWs rest = [] then some rs else none
      else none

/-- Lines 142-150 of `save_startups_data`: the existing collection read
back from the store file.  `none` models a missing file
(`os.path.exists` false); contents that fail to parse are treated as the
empty collection (the `except json.JSONDecodeError` handler). -/
def loadStartups (fileContents : Option String) : List StartupRecord :=
  match fileContents with
  | none => []
  | some contents =>
      match parseStartups contents with
      | some startups => startups
      | none => []

/-- `save_startups_data`, lines 140-165: load the existing collection,
merge the incoming batch into it, and rewrite the store file with the
full merged collection at `indent=2`.  The result is the pair (collection
returned to the caller, file text written). -/
def save_startups_data (fileContents : Option String) (startups : List StartupRecord) :
    List StartupRecord × String :=
  let existing_startups := loadStartups fileContents
  let merged := merge existing_startups startups
  (merged, String.mk (dumpStartups merged))

theorem fromHexDigit_hexDigit : ∀ d < 16, fromHexDigit (hexDigit d) = some d := by
  decide

theorem fromHex4_toHex4 (n : Nat) (h : n < 65536) :
    fromHex4 (hexDigit (n / 4096 % 16)) (hexDigit (n / 256 % 16))
      (hexDigit (n / 16 % 16)) (hexDigit (n % 16)) = some n := by
  have h1 := fromHexDigit_hexDigit (n / 4096 % 16) (Nat.mod_lt _ (by norm_num))
  have h2 := fromHexDigit_hexDigit (n / 256 % 16) (Nat.mod_lt _ (by norm_num))
  have h3 := fromHexDigit_hexDigit (n / 16 % 16) (Nat.mod_lt _ (by norm_num))
  have h4 := fromHexDigit_hexDigit (n % 16) (Nat.mod_lt _ (by norm_num))
  simp only [fromHex4, h1, h2, h3, h4, Option.some.injEq]
  omega

theorem parseStringBody_encodeChar (c : Char) (rest : List Char) :
    parseStringBody (encodeChar c ++ rest) = consFirst c (parseStringBody rest) := by
  by_cases h1 : c = '"'
  · subst h1; simp [encodeChar, parseStringBody, parseEscape]
  by_cases h2 : c = '\\'
  · subst h2; simp [encodeChar, parseStringBody, parseEscape]
  by_cases h3 : c = '\x08'
  · subst h3; simp [encodeChar, parseStringBody, parseEscape]
  by_cases h4 : c = '\t'
  · subst h4; simp [encodeChar, parseStringBody, parseEscape]
  by_cases h5 : c = '\n'
  · subst h5; simp [encodeChar, parseStringBody, parseEscape]
  by_cases h6 : c = '\x0c'
  · subst h6; simp [encodeChar, parseStringBody, parseEscape]
  by_cases h7 : c = '\r'
  · subst h7; simp [encodeChar, parseStringBody, parseEscape]
  by_cases h8 : 0x20 ≤ c.toNat ∧ c.toNat ≤ 0x7e
  · have henc : encodeChar c = [c] := by
      rw [encodeChar, if_neg h1, if_neg h2, if_neg h3, if_neg h4, if_neg h5, if_neg h6,
        if_neg h7, if_pos h8]
    rw [henc, List.singleton_append, parseStringBody, if_neg h1, if_neg h2,
      if_neg (Nat.not_lt.mpr h8.1)]
  by_cases h9 : c.toNat < 0x10000
  · have henc : encodeChar c = '\\' :: 'u' :: toHex4 c.toNat := by
      rw [encodeChar, if_neg h1, if_neg h2, if_neg h3, if_neg h4, if_neg h5, if_neg h6,
        if_neg h7, if_neg h8, if_pos h9]
    have hid : c.toNat = c.val.toNat := rfl
    have hns1 : ¬ (0xD800 ≤ c.toNat ∧ c.toNat < 0xDC00) := by
      rcases c.valid with h | h <;> omega
    have hns2 : ¬ (0xDC00 ≤ c.toNat ∧ c.toNat < 0xE000) := by
      rcases c.valid with h | h <;> omega
    have hhex := fromHex4_toHex4 c.toNat h9
    rw [henc]
    simp [toHex4, parseStringBody, parseEscape, parseUnicodeEscape, hhex, hns1, hns2,
      Char.ofNat_toNat]
  · have henc : encodeChar c
        = '\\' :: 'u' :: toHex4 (0xD800 + (c.toNat - 0x10000) / 0x400)
            ++ '\\' :: 'u' :: toHex4 (0xDC00 + (c.toNat - 0x10000) % 0x400) := by
      rw [encodeChar, if_neg h1, if_neg h2, if_neg h3, if_neg h4, if_neg h5, if_neg h6,
        if_neg h7, if_neg h8, if_neg h9]
    have hid : c.toNat = c.val.toNat := rfl
    have hvalid : c.toNat < 0x110000 := by
      rcases c.valid with h | h <;> omega
    have hhi : 0xD800 ≤ 0xD800 + (c.toNat - 0x10000) / 0x400
        ∧ 0xD800 + (c.toNat - 0x10000) / 0x400 < 0xDC00 := by omega
    have hlo : 0xDC00 ≤ 0xDC00 + (c.toNat - 0x10000) % 0x400
        ∧ 0xDC00 + (c.toNat - 0x10000) % 0x400 < 0xE000 := by omega
    have hhex1 := fromHex4_toHex4 (0xD800 + (c.toNat - 0x10000) / 0x400) (by omega)
    have hhex2 := fromHex4_toHex4 (0xDC00 + (c.toNat - 0x10000) % 0x400) (by omega)
    have hcomb : 0x10000 + (0xD800 + (c.toNat - 0x10000) / 0x400 - 0xD800) * 0x400
        + (0xDC00 + (c.toNat - 0x10000) % 0x400 - 0xDC00) = c.toNat := by omega
    have hcomb2 : 0x10000 + (c.toNat - 0x10000) / 0x400 * 0x400
        + (c.toNat - 0x10000) % 0x400 = c.toNat := by omega
    rw [henc]
    simp [toHex4, parseStringBody, parseEscape, parseUnicodeEscape, parseLowSurrogate,
      hhex1, hhex2, hhi, hlo, hcomb, hcomb2, Char.ofNat_toNat]

theorem parseStringBody_encode (l : List Char) (rest : List Char) :
    parseStringBody (l.flatMap encodeChar ++ '"' :: rest) = some (l, rest) := by
  induction l with
  | nil => simp [parseStringBody]
  | cons c l ih =>
      simp only [List.flatMap_cons, List.append_assoc]
      rw [parseStringBody_encodeChar, ih]
      rfl

theorem expectChars_append (xs rest : List Char) :
    expectChars xs (xs ++ rest) = some rest := by
  induction xs with
  | nil => rfl
  | cons c cs ih => simp [expectChars, ih]

theorem parseField_indent (key : List Char) (v : String) (rest : List Char) :
    parseField key ('\n' :: ' ' :: ' ' :: ' ' :: ' ' :: (dumpField key v ++ rest))
      = some (v.toList, rest) := by
  unfold parseField
  have hshape : dumpField key v ++ rest
      = ('"' :: key ++ ['"']) ++ (':' :: ' ' :: (encodeString v ++ rest)) := by
    simp [dumpField]
  rw [hshape]
  have hws : skipWs ('\n' :: ' ' :: ' ' :: ' ' :: ' '
        :: (('"' :: key ++ ['"']) ++ (':' :: ' ' :: (encodeString v ++ rest))))
      = ('"' :: key ++ ['"']) ++ (':' :: ' ' :: (encodeString v ++ rest)) := by
    simp [skipWs, isJsonWs]
  rw [hws, expectChars_append]
  simp only [skipWs, isJsonWs]
  simp [expectChars, encodeString, skipWs, isJsonWs, parseStringBody_encode]

theorem parseRecord_dump (r : StartupRecord) (rest : List Char) :
    parseRecord ('\n' :: ' ' :: ' ' :: (dumpRecordBody r ++ rest)) = some (r, rest) := by
  have hmk : ∀ s : String, String.mk s.toList = s := fun _ => rfl
  unfold parseRecord
  simp only [dumpRecordBody, List.cons_append, List.append_assoc, List.nil_append]
  simp [skipWs, isJsonWs, expectChars, parseField_indent, hmk]

theorem parseRecords_dump (rs : List StartupRecord) :
    ∀ (fuel : Nat) (r : StartupRecord), rs.length < fuel →
      parseRecords fuel ('\n' :: ' ' :: ' ' :: (dumpRecordBody r ++ dumpMore rs))
        = some (r :: rs, []) := by
  induction rs with
  | nil =>
      intro fuel r hf
      cases fuel with
      | zero => omega
      | succ fuel =>
          rw [parseRecords, parseRecord_dump]
          simp [dumpMore, skipWs, isJsonWs]
  | cons r2 rs2 ih =>
      intro fuel r hf
      cases fuel with
      | zero => omega
      | succ fuel =>
          rw [parseRecords, parseRecord_dump]
          have hrest : dumpMore (r2 :: rs2)
              = ',' :: '\n' :: ' ' :: ' ' :: (dumpRecordBody r2 ++ dumpMore rs2) := by
            simp [dumpMore]
          rw [hrest]
          have hws : skipWs (',' :: '\n' :: ' ' :: ' '
                :: (dumpRecordBody r2 ++ dumpMore rs2))
              = ',' :: '\n' :: ' ' :: ' ' :: (dumpRecordBody r2 ++ dumpMore rs2) := by
            simp [skipWs, isJsonWs]
          have hrec := ih fuel r2 (by simpa using Nat.lt_of_succ_lt_succ hf)
          simp [hws, hrec]

theorem length_le_dumpMore (rs : List StartupRecord) :
    rs.length ≤ (dumpMore rs).length := by
  induction rs with
  | nil => simp [dumpMore]
  | cons r2 rs2 ih => simp [dumpMore]; omega

theorem parseStartups_dump (R : List StartupRecord) :
    parseStartups (String.mk (dumpStartups R)) = some R := by
  cases R with
  | nil => rfl
  | cons r rs =>
      have htl : (String.mk (dumpStartups (r :: rs))).toList = dumpStartups (r :: rs) := rfl
      have hlen : (String.mk (dumpStartups (r :: rs))).length = (dumpStartups (r :: rs)).length := rfl
      have hski : skipWs (dumpStartups (r :: rs))
          = '[' :: ('\n' :: ' ' :: ' ' :: (dumpRecordBody r ++ dumpMore rs)) := by
        simp [dumpStartups, skipWs, isJsonWs]
      have ht : dumpRecordBody r ++ dumpMore rs
          = '\x7b' :: (('\n' :: ' ' :: ' ' :: ' ' :: ' ' :: dumpField nameKey r.name
              ++ ',' :: '\n' :: ' ' :: ' ' :: ' ' :: ' '
                :: dumpField descriptionKey r.description
              ++ ',' :: '\n' :: ' ' :: ' ' :: ' ' :: ' ' :: dumpField urlKey r.url
              ++ ',' :: '\n' :: ' ' :: ' ' :: ' ' :: ' '
                :: dumpField foundDateKey r.found_date
              ++ '\n' :: ' ' :: ' ' :: '\x7d' :: []) ++ dumpMore rs) := by
        simp [dumpRecordBody]
      have hfuel : rs.length < (dumpStartups (r :: rs)).length + 1 := by
        have h1 := length_le_dumpMore rs
        simp [dumpStartups, List.length_append]
        omega
      have hrec := parseRecords_dump rs ((dumpStartups (r :: rs)).length + 1) r hfuel
      rw [ht] at hrec
      simp only [List.cons_append, List.append_assoc, List.nil_append] at hrec
      unfold parseStartups
      rw [htl, hlen, hski, ht]
      simp [skipWs, isJsonWs, hrec]

/-- C8: store persistence round-trips — loading the file text produced by
serialising any record collection yields that collection exactly, field
for field and in order; in particular each run's save is read back
unchanged by the next run's load. -/
theorem store_round_trip :
    (∀ R : List StartupRecord, loadStartups (some (String.mk (dumpStartups R))) = R)
    ∧ ∀ (fileContents : Option String) (startups : List StartupRecord),
        loadStartups (some ((save_startups_data fileContents startups).2))
          = (save_startups_data fileContents startups).1 := by
  constructor
  · intro R
    simp [loadStartups, parseStartups_dump]
  · intro fileContents startups
    simp [save_startups_data, loadStartups, parseStartups_dump]

/-- C7: a missing store file, or one whose contents fail to parse, loads
as the empty collection, and the run's merge then proceeds from the empty
collection rather than failing. -/
theorem load_tolerates_missing_or_corrupt (fileContents : Option String)
    (startups : List StartupRecord)
    (h : fileContents = none
      ∨ ∃ contents, fileContents = some contents ∧ parseStartups contents = none) :
    loadStartups fileContents = []
    ∧ (save_startups_data fileContents startups).1 = merge [] startups := by
  have hload : loadStartups fileContents = [] := by
    rcases h with h | ⟨contents, hc, hp⟩
    · subst h; rfl
    · subst hc; simp [loadStartups, hp]
  exact ⟨hload, by simp [save_startups_data, hload]⟩

/-- Witness for corrupt-store recovery at a concrete unparsable file. -/
theorem load_tolerates_missing_or_corrupt_witness :
    loadStartups (some "startups: broken") = []
    ∧ (save_startups_data (some "startups: broken") []).1 = merge [] [] :=
  load_tolerates_missing_or_corrupt (some "startups: broken") []
    (Or.inr ⟨"startups: broken", rfl, by decide⟩)

/-- The mock records of `run`, lines 225-238, stamped with the current
date. -/
def mockStartups (today : String) : List StartupRecord :=
  [{ name := "AI Builder",
     description := "Y Combinator W2024 batch. We\x27re building AI-powered tools for software development.",
     url := "https://www.linkedin.com/company/aibuilder",
     found_date := today },
   { name := "DataSense AI",
     description := "YC S2023 batch. Enterprise AI solutions for data analytics.",
     url := "https://www.linkedin.com/company/datasense-ai",
     found_date := today }]

/-- The credential test of `run`, line 223:
`if not linkedin_username or not linkedin_password` — an environment
credential is falsy when the variable is absent (`None`) or set to the
empty string. -/
def credsMissing (username password : Option String) : Bool :=
  username.getD "" = "" || password.getD "" = ""

/-- Outcome of the browser-session phase of `run` (lines 244-253):
`setup_driver()` raising (caught by the handler at lines 261-264),
`login_to_linkedin` returning false (lines 247-251), or a live session
whose search yields the given successfully parsed result cards
(exceptions inside `search_yc_ai_startups` are caught there and yield the
cards collected so far). -/
inductive SessionOutcome where
  | setupFailed
  | loginFailed
  | loggedIn (cards : List CompanyCard)
deriving DecidableEq

/-- `run`, lines 218-264.  The result pair records the two file effects of
a run: the store write (the merged collection together with the file text,
`none` when no write happens) and the README write (the document text,
`none` when no write happens). -/
def run (username password : Option String) (session : SessionOutcome)
    (storeFile : Option String) (today : String) :
    Option (List StartupRecord × String) × Option String :=
  if credsMissing username password then
    let saved := save_startups_data storeFile (mockStartups today)
    (some saved, some (update_readme saved.1 today).1)
  else
    match session with
    | SessionOutcome.setupFailed => (none, none)
    | SessionOutcome.loginFailed => (none, none)
    | SessionOutcome.loggedIn cards =>
        let saved := save_startups_data storeFile (search_yc_ai_startups today cards)
        (some saved, some (update_readme saved.1 today).1)

/-- C9: with credentials present, a failed session setup or a failed
login aborts the run before any mutation — neither the store file nor the
report document is written. -/
theorem run_aborts_before_mutation (username password : Option String)
    (session : SessionOutcome) (storeFile : Option String) (today : String)
    (hcreds : credsMissing username password = false)
    (hfail : session = SessionOutcome.setupFailed
      ∨ session = SessionOutcome.loginFailed) :
    run username password session storeFile today = (none, none) := by
  rcases hfail with h | h <;> subst h <;> simp [run, hcreds]

/-- Witness for the abort-before-mutation claim at concrete credentials
and a failed login. -/
theorem run_aborts_before_mutation_witness :
    credsMissing (some "user") (some "pass") = false
    ∧ run (some "user") (some "pass") SessionOutcome.loginFailed none "2024-01-01"
        = (none, none) :=
  ⟨by decide, run_aborts_before_mutation (some "user") (some "pass")
      SessionOutcome.loginFailed none "2024-01-01" (by decide) (Or.inr rfl)⟩
